import Mathlib

set_option maxHeartbeats 1000000

/-!
A shallow embedding of the docugen MCP server (`src/simple-server.ts`):
the markdown-table parser, the text-occurrence locator, the request
builders of the five tools, and the tools' control flow around the
Google Docs / Drive client handles.  Text scanning is modelled on
`List Char` (`String.data`); document offsets are `Int` because the
source uses `-1` sentinels.
-/

namespace DocuGen

/-- ASCII whitespace recognised by the JS regex class `\s` and by
`String.prototype.trim` (the non-ASCII space characters never occur here). -/
def isWsChar (c : Char) : Bool :=
  c == ' ' || c == '\t' || c == '\n' || c == '\r' || c == '\u000B' || c == '\u000C'

/-- Mirrors `text.trim()`. -/
def jsTrim (l : List Char) : List Char :=
  ((l.dropWhile isWsChar).reverse.dropWhile isWsChar).reverse

/-- Mirrors `text.split(sep)` for a one-character separator. -/
def splitOnChar (sep : Char) : List Char → List (List Char)
  | [] => [[]]
  | c :: rest =>
    if c = sep then [] :: splitOnChar sep rest
    else
      match splitOnChar sep rest with
      | [] => [[c]]
      | l :: ls => (c :: l) :: ls

/-- Mirrors `parts.join(sep)`. -/
def joinChar (sep : Char) : List (List Char) → List Char
  | [] => []
  | [l] => l
  | l :: ls => l ++ sep :: joinChar sep ls

/-- The character class `[\s\-:|]` of the separator-line regex (line 510). -/
def isSepChar (c : Char) : Bool :=
  c == '|' || c == '-' || c == ':' || isWsChar c

/-- Matches `[\s\-:|]*\|` against a prefix of the remaining line (the part of
the separator regex after its first class character, with backtracking folded
into a disjunction). -/
def pipeAfterClass : List Char → Bool
  | [] => false
  | c :: rest => c == '|' || (isSepChar c && pipeAfterClass rest)

/-- Matches `[\s\-:|]+\|` against a prefix of the line. -/
def classPlusPipe : List Char → Bool
  | [] => false
  | c :: rest => isSepChar c && pipeAfterClass rest

/-- `line.match(/^\|?[\s\-:|]+\|/)` from ConvertToTable (line 510): the
optional leading `|` is either consumed (first disjunct) or not (second). -/
def sepLineMatch (l : List Char) : Bool :=
  (match l with
   | c :: rest => c == '|' && classPlusPipe rest
   | [] => false) || classPlusPipe l

/-- `line.split('|').map(cell => cell.trim()).filter(cell => cell !== '')`
(lines 513-516). -/
def parseCells (line : List Char) : List String :=
  ((splitOnChar '|' line).map (fun cell => String.mk (jsTrim cell))).filter
    (fun cell => cell != "")

/-- The body of the ConvertToTable parsing loop for one line: skip separator
lines, then keep the cells when at least one is non-empty (lines 508-521). -/
def rowOfLine (line : List Char) : Option (List String) :=
  if sepLineMatch line then none
  else
    let cells := parseCells line
    if cells.isEmpty then none else some cells

/-- `tableText.trim().split('\n')` parsed into rows (lines 505-521). -/
def parseTableRows (tableText : String) : List (List String) :=
  (splitOnChar '\n' (jsTrim tableText.data)).filterMap rowOfLine

/-- The fence line pushed around detected table blocks by
`formatMarkdownTable`. -/
def fenceLine : List Char := "```".data

/-- The loop of `formatMarkdownTable` (lines 124-154): the first argument is
the mutable `inTable` flag, and the `true, []` base case is the trailing
`if (inTable)` close. -/
def formatMLGo : Bool → List (List Char) → List (List Char)
  | true, [] => [fenceLine]
  | false, [] => []
  | inTable, line :: rest =>
    if line.any (fun c => c == '|') then
      if inTable then line :: formatMLGo true rest
      else fenceLine :: line :: formatMLGo true rest
    else
      if inTable then fenceLine :: line :: formatMLGo false rest
      else line :: formatMLGo false rest

/-- `formatMarkdownTable` (lines 124-154): split on newlines, wrap runs of
`|`-containing lines in fences, join back. -/
def formatMarkdownTable (text : String) : String :=
  String.mk (joinChar '\n' (formatMLGo false (splitOnChar '\n' text.data)))

/-- The same traversal as `formatMLGo`, with each output line tagged `true`
exactly when it is one of the inserted fence lines. -/
def formatMLGoI : Bool → List (List Char) → List (Bool × List Char)
  | true, [] => [(true, fenceLine)]
  | false, [] => []
  | inTable, line :: rest =>
    if line.any (fun c => c == '|') then
      if inTable then (false, line) :: formatMLGoI true rest
      else (true, fenceLine) :: (false, line) :: formatMLGoI true rest
    else
      if inTable then (true, fenceLine) :: (false, line) :: formatMLGoI false rest
      else (false, line) :: formatMLGoI false rest

/-- `s.indexOf(pat, start)` restricted to found/not-found: the least index
`i ≥ start` at which `pat` occurs in `s`. -/
def indexOfFrom (s pat : List Char) (start : Nat) : Option Nat :=
  (List.range (s.length + 1)).find?
    (fun i => decide (start ≤ i) && pat.isPrefixOf (s.drop i))

/-- The FormatDoc occurrence loop (lines 391-398): record a match, then
resume the search at `index + 1`.  The fuel argument bounds the number of
iterations (the found index strictly increases, so `length + 2` suffices). -/
def occurrencesFrom (s pat : List Char) : Nat → Nat → List Nat
  | _, 0 => []
  | start, fuel + 1 =>
    match indexOfFrom s pat start with
    | none => []
    | some i => i :: occurrencesFrom s pat (i + 1) fuel

/-- All occurrences of `target` in one text run, as absolute offset ranges
`(elem.startIndex + index, elem.startIndex + index + target.length)`. -/
def occurrencesInRun (target content : String) (runStart : Nat) : List (Int × Int) :=
  (occurrencesFrom content.data target.data 0 (content.data.length + 2)).map
    (fun i => ((runStart : Int) + (i : Int),
               (runStart : Int) + (i : Int) + (target.data.length : Int)))

/-- One `textRun` of the document body: its raw text and absolute start
offset (`elem.startIndex || 0`). -/
structure TextRun where
  content : String
  startIndex : Nat
deriving DecidableEq

/-- One element of a paragraph: a text run, or some other inline element
(skipped by every scan). -/
inductive ParaElem where
  | run (r : TextRun)
  | other
deriving DecidableEq

/-- One element of `doc.data.body.content`: a paragraph with its inline
elements, or a non-paragraph structural element (skipped). -/
inductive BodyElement where
  | paragraph (elems : List ParaElem)
  | other
deriving DecidableEq

/-- The fetched document body, in document order. -/
abbrev Document := List BodyElement

def paraRuns : ParaElem → List TextRun
  | .run r => [r]
  | .other => []

def elementRuns : BodyElement → List TextRun
  | .paragraph es => es.flatMap paraRuns
  | .other => []

/-- The flattened text runs of a document, in document order. -/
def textRuns (doc : Document) : List TextRun := doc.flatMap elementRuns

/-- All occurrences of `target` across the document (FormatDoc lines 385-403). -/
def docOccurrences (doc : Document) (target : String) : List (Int × Int) :=
  (textRuns doc).flatMap (fun r => occurrencesInRun target r.content r.startIndex)

/-- The `textStyle` object of an UpdateTextStyle request: only the
explicitly-set boolean fields. -/
structure TextStyleVal where
  bold : Option Bool
  italic : Option Bool
  underline : Option Bool
deriving DecidableEq

/-- One entry of a `batchUpdate` request array. -/
inductive Request where
  | insertText (index : Int) (text : String)
  | deleteContentRange (startIndex endIndex : Int)
  | updateTextStyle (startIndex endIndex : Int) (style : TextStyleVal) (fields : List String)
  | updateParagraphStyle (startIndex endIndex : Int) (namedStyleType : String)
  | insertTable (rows columns : Nat) (index : Int)
deriving DecidableEq

/-- One FormatDoc instruction (zod schema, lines 355-361). -/
structure FormatInstruction where
  text : String
  bold : Option Bool
  italic : Option Bool
  underline : Option Bool
  heading : Option Nat
deriving DecidableEq

/-- The `fields` array built for an UpdateTextStyle request
(lines 408-422): pushed in the order bold, italic, underline, each only
when the instruction sets it. -/
def textStyleFields (f : FormatInstruction) : List String :=
  (if f.bold.isSome then ["bold"] else []) ++
  (if f.italic.isSome then ["italic"] else []) ++
  (if f.underline.isSome then ["underline"] else [])

/-- `format.heading === 1 ? 'HEADING_1' : format.heading === 2 ? 'HEADING_2'
: 'HEADING_3'` (lines 439-440). -/
def headingName (h : Nat) : String :=
  if h = 1 then "HEADING_1" else if h = 2 then "HEADING_2" else "HEADING_3"

/-- The UpdateParagraphStyle request for one occurrence (lines 438-454);
`if (format.heading)` is falsy for both `undefined` and `0`. -/
def headingRequests (f : FormatInstruction) (s e : Int) : List Request :=
  match f.heading with
  | none => []
  | some h => if h = 0 then [] else [.updateParagraphStyle s e (headingName h)]

/-- The requests pushed for one located occurrence (lines 406-455): an
UpdateTextStyle only when at least one style field is set, then the
heading request. -/
def occurrenceRequests (f : FormatInstruction) (s e : Int) : List Request :=
  (if (textStyleFields f).isEmpty then []
   else [.updateTextStyle s e ⟨f.bold, f.italic, f.underline⟩ (textStyleFields f)]) ++
  headingRequests f s e

/-- The full request array of one FormatDoc call (lines 377-456). -/
def formatRequests (doc : Document) (formatting : List FormatInstruction) : List Request :=
  formatting.flatMap (fun f =>
    (docOccurrences doc f.text).flatMap (fun occ => occurrenceRequests f occ.1 occ.2))

/-- One round-trip to the external services. -/
inductive ExtCall where
  | docsCreate
  | docsGet
  | docsBatchUpdate (requests : List Request)
  | driveDelete (fileId : String)
deriving DecidableEq

/-- The observable outcome of one tool call: the returned text, the
`isError` flag, and the external calls made, in order. -/
structure ToolRun where
  message : String
  isError : Bool
  calls : List ExtCall
deriving DecidableEq

/-- CreateDoc (lines 161-222).  `docsReady` models whether `docsClient` was
established; `newDocumentId` is the id returned by `documents.create`.  The
`if (content)` guard of line 187 is JS truthiness: falsy for an absent
content and for the empty string alike, so only a present, non-empty content
is formatted and inserted. -/
def createDoc (docsReady : Bool) (title : String) (content : Option String)
    (newDocumentId : String) : ToolRun :=
  if !docsReady then
    ⟨"❌ Google API not initialized. Please check credentials.", true, []⟩
  else
    match content with
    | some c =>
      if c = "" then
        ⟨"✅ Created document \"" ++ title ++ "\"\nID: " ++ newDocumentId, false,
         [.docsCreate]⟩
      else
        ⟨"✅ Created document \"" ++ title ++ "\"\nID: " ++ newDocumentId, false,
         [.docsCreate, .docsBatchUpdate [.insertText 1 (formatMarkdownTable c)]]⟩
    | none =>
      ⟨"✅ Created document \"" ++ title ++ "\"\nID: " ++ newDocumentId, false,
       [.docsCreate]⟩

inductive UpdateMode where
  | replace
  | append
deriving DecidableEq

def updateModeName : UpdateMode → String
  | .replace => "replace"
  | .append => "append"

/-- The request array of UpdateDoc (lines 244-281), given the fetched
document's final `endIndex`. -/
def updateDocRequests (content : String) (mode : UpdateMode) (endIndex : Int) : List Request :=
  match mode with
  | .replace =>
    (if endIndex > 1 then [.deleteContentRange 1 (endIndex - 1)] else []) ++
    [.insertText 1 content]
  | .append => [.insertText (endIndex - 1) ("\n" ++ content)]

/-- UpdateDoc (lines 225-306); an omitted `mode` defaults to append. -/
def updateDoc (docsReady : Bool) (documentId : String) (content : String)
    (mode : Option UpdateMode) (endIndex : Int) : ToolRun :=
  if !docsReady then ⟨"❌ Google API not initialized.", true, []⟩
  else
    let m := mode.getD .append
    ⟨"✅ Updated document " ++ documentId ++ " (mode: " ++ updateModeName m ++ ")",
     false, [.docsGet, .docsBatchUpdate (updateDocRequests content m endIndex)]⟩

/-- DeleteDoc (lines 309-348); checks `driveClient`. -/
def deleteDoc (driveReady : Bool) (documentId : String) : ToolRun :=
  if !driveReady then ⟨"❌ Google API not initialized.", true, []⟩
  else ⟨"✅ Deleted document " ++ documentId, false, [.driveDelete documentId]⟩

/-- FormatDoc (lines 351-483): fetch the document, build the requests, and
issue the batch only when at least one request was produced. -/
def formatDoc (docsReady : Bool) (documentId : String) (doc : Document)
    (formatting : List FormatInstruction) : ToolRun :=
  if !docsReady then ⟨"❌ Google API not initialized.", true, []⟩
  else
    let reqs := formatRequests doc formatting
    ⟨"✅ Applied formatting to document " ++ documentId, false,
     [.docsGet] ++ (if reqs.isEmpty then [] else [.docsBatchUpdate reqs])⟩

/-- One step of the ConvertToTable location scan (lines 540-561): the
accumulator is `(tableStartIndex, tableEndIndex)`, both `-1` initially; the
end offset is looked up only in the run where the first line was found. -/
def findTableStep (first last : List Char) (acc : Int × Int) (r : TextRun) : Int × Int :=
  match indexOfFrom r.content.data first 0 with
  | some i =>
    if acc.1 = -1 then
      ((r.startIndex : Int) + (i : Int),
       match indexOfFrom r.content.data last 0 with
       | some e => (r.startIndex : Int) + (e : Int) + (last.length : Int)
       | none => acc.2)
    else acc
  | none => acc

/-- The ConvertToTable location scan over all text runs. -/
def findTableRange (doc : Document) (first last : List Char) : Int × Int :=
  (textRuns doc).foldl (findTableStep first last) (-1, -1)

/-- The inner cell loop of ConvertToTable (lines 605-619) for one row:
`cellIndex = tableStartIndex + 4 + rowIndex * 5 + colIndex * 2`, and a
request only for truthy (non-empty) cell text. -/
def cellRowRequests (ts : Int) (rowIndex : Nat) : Nat → List String → List Request
  | _, [] => []
  | colIndex, cell :: restCells =>
    (if cell = "" then []
     else [Request.insertText (ts + 4 + (rowIndex : Int) * 5 + (colIndex : Int) * 2) cell]) ++
    cellRowRequests ts rowIndex (colIndex + 1) restCells

def cellInsertRequestsAux (ts : Int) : Nat → List (List String) → List Request
  | _, [] => []
  | rowIndex, row :: restRows =>
    cellRowRequests ts rowIndex 0 row ++ cellInsertRequestsAux ts (rowIndex + 1) restRows

/-- The second batch of ConvertToTable: one InsertText per non-empty cell. -/
def cellInsertRequests (rows : List (List String)) (ts : Int) : List Request :=
  cellInsertRequestsAux ts 0 rows

/-- The first batch of ConvertToTable (lines 574-595): delete the markdown
text only when `tableEndIndex > tableStartIndex`, then insert the table. -/
def convertBatch1 (rows : List (List String)) (ts te : Int) : List Request :=
  (if te > ts then [Request.deleteContentRange ts te] else []) ++
  [Request.insertTable rows.length (rows.headD []).length ts]

/-- ConvertToTable (lines 486-646). -/
def convertToTable (docsReady : Bool) (documentId : String) (doc : Document)
    (tableText : String) : ToolRun :=
  if !docsReady then ⟨"❌ Google API not initialized.", true, []⟩
  else
    let rows := parseTableRows tableText
    if rows.isEmpty then ⟨"❌ No valid table data found", true, []⟩
    else
      let lines := splitOnChar '\n' (jsTrim tableText.data)
      let p := findTableRange doc (lines.headD []) (lines.getLastD [])
      if p.1 = -1 then ⟨"❌ Could not find table text in document", true, [.docsGet]⟩
      else
        let batch2 := cellInsertRequests rows p.1
        ⟨"✅ Converted markdown table to Google Docs table (" ++ toString rows.length ++
           " rows × " ++ toString (rows.headD []).length ++ " columns)",
         false,
         [.docsGet, .docsBatchUpdate (convertBatch1 rows p.1 p.2)] ++
           (if batch2.isEmpty then [] else [.docsBatchUpdate batch2])⟩

/-- What the location scan can report about a run list: either nothing was
found, or the first line was found in some run, and the last-line offset was
resolved (or not) in that same run. -/
def FindSpec (runs : List TextRun) (first last : List Char) (p : Int × Int) : Prop :=
  p = (-1, -1) ∨
  ∃ r ∈ runs, ∃ i : Nat,
    indexOfFrom r.content.data first 0 = some i ∧
    p.1 = (r.startIndex : Int) + (i : Int) ∧
    ((p.2 = -1 ∧ indexOfFrom r.content.data last 0 = none) ∨
     ∃ e : Nat, indexOfFrom r.content.data last 0 = some e ∧
       p.2 = (r.startIndex : Int) + (e : Int) + (last.length : Int))

/-- Concrete one-run document used to witness the ConvertToTable claims. -/
def c3doc : Document :=
  [.paragraph [.run ⟨"| A | B |\n|---|---|\n| 1 | 2 |\n", 1⟩]]

/-- Concrete one-run document whose text contains the markdown's first line
but not its last line. -/
def c10doc : Document :=
  [.paragraph [.run ⟨"| A | B |\nrest of paragraph", 1⟩]]

/-- Concrete one-run document used to witness the FormatDoc claims. -/
def c6doc : Document :=
  [.paragraph [.run ⟨"Intro text\n", 1⟩]]

/-! ## Characterisation of the separator-line regex -/

theorem pipeAfterClass_iff (l : List Char) :
    pipeAfterClass l = true ↔
      ∃ p q, (∀ c ∈ p, isSepChar c = true) ∧ l = p ++ '|' :: q := by
  induction l with
  | nil =>
    constructor
    · intro h; exact absurd h (by decide)
    · rintro ⟨p, q, _, heq⟩
      exact absurd heq (by simp)
  | cons c rest ih =>
    simp only [pipeAfterClass, Bool.or_eq_true, Bool.and_eq_true, beq_iff_eq]
    constructor
    · rintro (hc | ⟨hcls, hrest⟩)
      · exact ⟨[], rest, by simp, by simp [hc]⟩
      · obtain ⟨p, q, hp, heq⟩ := ih.mp hrest
        refine ⟨c :: p, q, ?_, by simp [heq]⟩
        intro x hx
        rcases List.mem_cons.mp hx with h | h
        · exact h ▸ hcls
        · exact hp x h
    · rintro ⟨p, q, hp, heq⟩
      cases p with
      | nil =>
        rw [List.nil_append] at heq
        injection heq with h1 _
        exact Or.inl h1
      | cons a p' =>
        rw [List.cons_append] at heq
        injection heq with h1 h2
        subst h1
        refine Or.inr ⟨hp c (List.mem_cons_self _ _), ih.mpr ⟨p', q, ?_, h2⟩⟩
        exact fun x hx => hp x (List.mem_cons_of_mem _ hx)

theorem classPlusPipe_iff (l : List Char) :
    classPlusPipe l = true ↔
      ∃ p q, p ≠ [] ∧ (∀ c ∈ p, isSepChar c = true) ∧ l = p ++ '|' :: q := by
  cases l with
  | nil =>
    constructor
    · intro h; exact absurd h (by decide)
    · rintro ⟨p, q, hne, _, heq⟩
      cases p with
      | nil => exact absurd rfl hne
      | cons a p' => exact absurd heq (by simp)
  | cons c rest =>
    simp only [classPlusPipe, Bool.and_eq_true]
    constructor
    · rintro ⟨hcls, hrest⟩
      obtain ⟨p, q, hp, heq⟩ := (pipeAfterClass_iff rest).mp hrest
      refine ⟨c :: p, q, by simp, ?_, by simp [heq]⟩
      intro x hx
      rcases List.mem_cons.mp hx with h | h
      · exact h ▸ hcls
      · exact hp x h
    · rintro ⟨p, q, hne, hp, heq⟩
      cases p with
      | nil => exact absurd rfl hne
      | cons a p' =>
        rw [List.cons_append] at heq
        injection heq with h1 h2
        subst h1
        refine ⟨hp c (List.mem_cons_self _ _), (pipeAfterClass_iff rest).mpr ⟨p', q, ?_, h2⟩⟩
        exact fun x hx => hp x (List.mem_cons_of_mem _ hx)

theorem sepLineMatch_iff (l : List Char) :
    sepLineMatch l = true ↔
      ∃ p q, p ≠ [] ∧ (∀ c ∈ p, isSepChar c = true) ∧ l = p ++ '|' :: q := by
  cases l with
  | nil =>
    constructor
    · intro h; exact absurd h (by decide)
    · rintro ⟨p, q, hne, _, heq⟩
      cases p with
      | nil => exact absurd rfl hne
      | cons a p' => exact absurd heq (by simp)
  | cons c rest =>
    constructor
    · intro h
      simp only [sepLineMatch, Bool.or_eq_true, Bool.and_eq_true, beq_iff_eq] at h
      rcases h with ⟨hc, hcpp⟩ | h
      · obtain ⟨p, q, hne, hp, heq⟩ := (classPlusPipe_iff rest).mp hcpp
        refine ⟨'|' :: p, q, by simp, ?_, by simp [hc, heq]⟩
        intro x hx
        rcases List.mem_cons.mp hx with h | h
        · subst h; decide
        · exact hp x h
      · exact (classPlusPipe_iff _).mp h
    · intro h
      simp only [sepLineMatch, Bool.or_eq_true]
      exact Or.inr ((classPlusPipe_iff (c :: rest)).mpr h)

theorem length_parseTableRows (tableText : String) :
    (parseTableRows tableText).length =
      ((splitOnChar '\n' (jsTrim tableText.data)).filter
        (fun line => !sepLineMatch line && !(parseCells line).isEmpty)).length := by
  unfold parseTableRows
  generalize splitOnChar '\n' (jsTrim tableText.data) = lines
  induction lines with
  | nil => rfl
  | cons line rest ih =>
    by_cases hs : sepLineMatch line = true
    · simp [rowOfLine, hs, ih]
    · by_cases hc : (parseCells line).isEmpty = true
      · simp [rowOfLine, hs, hc, ih]
      · simp [rowOfLine, hs, hc, ih]

/-- Claim C1, counterexample: the line `---` is composed only of characters
from the class `{'|','-',':',whitespace}`, yet it is not discarded by the
separator test of ConvertToTable and appears as a row of the grid: for input
`"A|B\n---"` (one table-row line, one separator line) the parser returns two
rows, not one. -/
theorem c1_counterexample :
    "---".data.all isSepChar = true ∧
    parseTableRows "A|B\n---" = [["A", "B"], ["---"]] := by
  constructor
  · decide
  · decide

/-- Claim C1, amended: a line is discarded as a separator iff it has a
prefix consisting of a non-empty run of characters from
`{'|','-',':',whitespace}` followed by `'|'` (the anchored prefix regex
`^\|?[\s\-:|]+\|`); a separator-charset line without such a second `|`
(such as `---`) is kept, and a line such as `|-|x` is discarded although it
contains other characters.  The parser returns exactly one row per
non-discarded line whose trimmed, non-empty cell list is non-empty. -/
theorem c1_amended_separator_lines :
    (∀ l : List Char, sepLineMatch l = true ↔
        ∃ p q, p ≠ [] ∧ (∀ c ∈ p, isSepChar c = true) ∧ l = p ++ '|' :: q) ∧
    (∀ tableText : String,
        (parseTableRows tableText).length =
          ((splitOnChar '\n' (jsTrim tableText.data)).filter
            (fun line => !sepLineMatch line && !(parseCells line).isEmpty)).length) :=
  ⟨sepLineMatch_iff, length_parseTableRows⟩

/-- Witness for the amended C1 at concrete inputs. -/
theorem c1_amended_witness :
    sepLineMatch "|-|x".data = true ∧ (parseTableRows "A|B").length = 1 := by
  constructor
  · exact (c1_amended_separator_lines.1 "|-|x".data).mpr
      ⟨['|', '-'], ['x'], by decide, by decide, by decide⟩
  · rw [c1_amended_separator_lines.2 "A|B"]; decide

/-- Claim C2: the occurrence loop of FormatDoc resumes each search at
`index + 1` (one past the previous match's start), so overlapping
self-matches are found: on span `"ababab"` with target `"aba"` it returns
exactly the two matches at offsets 0 and 2 relative to the span start. -/
theorem c2_overlapping_occurrences :
    (∀ (s pat : List Char) (start fuel : Nat),
        occurrencesFrom s pat start (fuel + 1) =
          match indexOfFrom s pat start with
          | none => []
          | some i => i :: occurrencesFrom s pat (i + 1) fuel) ∧
    (∀ runStart : Nat,
        occurrencesInRun "aba" "ababab" runStart =
          [((runStart : Int), (runStart : Int) + 3),
           ((runStart : Int) + 2, (runStart : Int) + 5)]) := by
  constructor
  · intro s pat start fuel; rfl
  · intro runStart
    have h : occurrencesFrom "ababab".data "aba".data 0 ("ababab".data.length + 2) =
        [0, 2] := by decide
    have hlen : ("aba".data.length : Int) = 3 := by decide
    simp only [occurrencesInRun, h, List.map_cons, List.map_nil, hlen]
    norm_num
    omega

/-- Claim C5: UpdateDoc in replace mode against a body ending at `E > 1`
emits a DeleteRange `[1, E-1)` then an InsertText of the content at index 1;
append mode (also the default when the mode is omitted) emits a single
InsertText at `E - 1` of the newline-prefixed content, with no delete. -/
theorem c5_updateDoc_requests (documentId content : String) (endIndex : Int)
    (h : 1 < endIndex) :
    updateDocRequests content UpdateMode.replace endIndex =
      [Request.deleteContentRange 1 (endIndex - 1), Request.insertText 1 content] ∧
    updateDocRequests content UpdateMode.append endIndex =
      [Request.insertText (endIndex - 1) ("\n" ++ content)] ∧
    (updateDoc true documentId content none endIndex).calls =
      [ExtCall.docsGet, ExtCall.docsBatchUpdate
        [Request.insertText (endIndex - 1) ("\n" ++ content)]] := by
  refine ⟨?_, rfl, ?_⟩
  · simp [updateDocRequests, h]
  · simp [updateDoc, updateDocRequests, Option.getD]

/-- Witness for C5 at a concrete end offset. -/
theorem c5_witness :
    (1 : Int) < 5 ∧
    updateDocRequests "hi" UpdateMode.replace 5 =
      [Request.deleteContentRange 1 (5 - 1), Request.insertText 1 "hi"] :=
  ⟨by decide, (c5_updateDoc_requests "doc-1" "hi" 5 (by decide)).1⟩

/-- Claim C8: with the relevant client handle never established, each of the
five tools returns an error result (`isError` set) and makes no call to the
external service. -/
theorem c8_uninitialized_tools (title documentId newDocumentId : String)
    (contentU : String) (content : Option String) (mode : Option UpdateMode)
    (endIndex : Int) (doc : Document) (formatting : List FormatInstruction)
    (tableText : String) :
    createDoc false title content newDocumentId =
      ⟨"❌ Google API not initialized. Please check credentials.", true, []⟩ ∧
    updateDoc false documentId contentU mode endIndex =
      ⟨"❌ Google API not initialized.", true, []⟩ ∧
    deleteDoc false documentId = ⟨"❌ Google API not initialized.", true, []⟩ ∧
    formatDoc false documentId doc formatting =
      ⟨"❌ Google API not initialized.", true, []⟩ ∧
    convertToTable false documentId doc tableText =
      ⟨"❌ Google API not initialized.", true, []⟩ :=
  ⟨rfl, rfl, rfl, rfl, rfl⟩

theorem formatRequests_of_no_occurrences (doc : Document)
    (formatting : List FormatInstruction)
    (h : ∀ f ∈ formatting, docOccurrences doc f.text = []) :
    formatRequests doc formatting = [] := by
  induction formatting with
  | nil => rfl
  | cons f fs ih =>
    have h1 : docOccurrences doc f.text = [] := h f (List.mem_cons_self _ _)
    have h2 := ih (fun g hg => h g (List.mem_cons_of_mem _ hg))
    unfold formatRequests at h2 ⊢
    simp [h1, h2]

/-- Claim C4, counterexample: FormatDoc whose only instruction's target text
does not occur in the document attempts no edit, but returns a success
result (`isError` is not set), not a user-visible error. -/
theorem c4_counterexample :
    formatDoc true "doc-1" c6doc [⟨"zzz", some true, none, none, none⟩] =
      ⟨"✅ Applied formatting to document doc-1", false, [ExtCall.docsGet]⟩ := by
  decide

/-- Claim C4, amended: when ConvertToTable cannot locate the first table
line it returns a user-visible error and issues no batchUpdate; when none of
FormatDoc's targets occur, FormatDoc likewise issues no batchUpdate, but it
reports success rather than an error. -/
theorem c4_amended_not_found :
    (∀ (documentId : String) (doc : Document) (tableText : String),
        parseTableRows tableText ≠ [] →
        (findTableRange doc ((splitOnChar '\n' (jsTrim tableText.data)).headD [])
            ((splitOnChar '\n' (jsTrim tableText.data)).getLastD [])).1 = -1 →
        convertToTable true documentId doc tableText =
          ⟨"❌ Could not find table text in document", true, [ExtCall.docsGet]⟩) ∧
    (∀ (documentId : String) (doc : Document) (formatting : List FormatInstruction),
        (∀ f ∈ formatting, docOccurrences doc f.text = []) →
        formatDoc true documentId doc formatting =
          ⟨"✅ Applied formatting to document " ++ documentId, false,
           [ExtCall.docsGet]⟩) := by
  constructor
  · intro documentId doc tableText h1 h2
    cases hrows : parseTableRows tableText with
    | nil => exact absurd hrows h1
    | cons r rs =>
      simp [convertToTable, hrows]
      simpa using h2
  · intro documentId doc formatting h
    have h2 : formatRequests doc formatting = [] :=
      formatRequests_of_no_occurrences doc formatting h
    simp [formatDoc, h2]

/-- Witness for the amended C4 at concrete inputs. -/
theorem c4_witness :
    convertToTable true "doc-1" c6doc "| X |\nend" =
      ⟨"❌ Could not find table text in document", true, [ExtCall.docsGet]⟩ ∧
    formatDoc true "doc-2" c6doc [⟨"zzz", some true, none, none, none⟩] =
      ⟨"✅ Applied formatting to document " ++ "doc-2", false, [ExtCall.docsGet]⟩ :=
  ⟨c4_amended_not_found.1 "doc-1" c6doc "| X |\nend" (by decide) (by decide),
   c4_amended_not_found.2 "doc-2" c6doc [⟨"zzz", some true, none, none, none⟩]
     (by decide)⟩

/-- Claim C6: FormatDoc with the single instruction
`{text: "Intro", heading: 2}` against a document with exactly one occurrence
of `"Intro"` emits exactly one UpdateParagraphStyle request with
`HEADING_2` over the occurrence's range, and no UpdateTextStyle request. -/
theorem c6_heading_only (documentId : String) (doc : Document) (s e : Int)
    (hocc : docOccurrences doc "Intro" = [(s, e)]) :
    formatRequests doc [⟨"Intro", none, none, none, some 2⟩] =
      [Request.updateParagraphStyle s e "HEADING_2"] ∧
    (formatDoc true documentId doc [⟨"Intro", none, none, none, some 2⟩]).calls =
      [ExtCall.docsGet, ExtCall.docsBatchUpdate
        [Request.updateParagraphStyle s e "HEADING_2"]] := by
  have h1 : formatRequests doc [⟨"Intro", none, none, none, some 2⟩] =
      [Request.updateParagraphStyle s e "HEADING_2"] := by
    simp [formatRequests, hocc, occurrenceRequests, textStyleFields,
      headingRequests, headingName]
  exact ⟨h1, by simp [formatDoc, h1]⟩

/-- Witness for C6 at a concrete one-occurrence document. -/
theorem c6_witness :
    docOccurrences c6doc "Intro" = [(1, 6)] ∧
    formatRequests c6doc [⟨"Intro", none, none, none, some 2⟩] =
      [Request.updateParagraphStyle 1 6 "HEADING_2"] :=
  ⟨by decide, (c6_heading_only "doc-1" c6doc 1 6 (by decide)).1⟩

theorem updateTextStyle_not_mem_headingRequests (f : FormatInstruction)
    (s e s' e' : Int) (st : TextStyleVal) (fl : List String) :
    Request.updateTextStyle s' e' st fl ∉ headingRequests f s e := by
  cases h : f.heading with
  | none => simp [headingRequests, h]
  | some k => by_cases hk : k = 0 <;> simp [headingRequests, h, hk]

/-- Claim C7: a boolean style field left unset in the instruction never
appears in the `fields` mask of the emitted UpdateTextStyle request, and
only explicitly-set fields do: membership of `"bold"`, `"italic"`,
`"underline"` in the mask is exactly `isSome` of the corresponding
instruction field, and every UpdateTextStyle emitted for an occurrence
carries exactly that mask. -/
theorem c7_unset_style_fields (f : FormatInstruction) :
    (("bold" ∈ textStyleFields f ↔ f.bold.isSome = true) ∧
     ("italic" ∈ textStyleFields f ↔ f.italic.isSome = true) ∧
     ("underline" ∈ textStyleFields f ↔ f.underline.isSome = true)) ∧
    (∀ (s e s' e' : Int) (st : TextStyleVal) (fl : List String),
        Request.updateTextStyle s' e' st fl ∈ occurrenceRequests f s e →
        fl = textStyleFields f) := by
  constructor
  · obtain ⟨t, b, i, u, hh⟩ := f
    cases b <;> cases i <;> cases u <;> simp [textStyleFields]
  · intro s e s' e' st fl hmem
    simp only [occurrenceRequests, List.mem_append] at hmem
    rcases hmem with hmem | hmem
    · by_cases hfe : (textStyleFields f).isEmpty
      · rw [if_pos hfe] at hmem
        simp at hmem
      · rw [if_neg hfe] at hmem
        simp only [List.mem_singleton, Request.updateTextStyle.injEq] at hmem
        exact hmem.2.2.2
    · exact absurd hmem (updateTextStyle_not_mem_headingRequests f s e s' e' st fl)

/-- Witness for C7 at a concrete bold-only instruction. -/
theorem c7_witness :
    Request.updateTextStyle 0 5 ⟨some true, none, none⟩ ["bold"] ∈
      occurrenceRequests ⟨"x", some true, none, none, none⟩ 0 5 ∧
    ["bold"] = textStyleFields ⟨"x", some true, none, none, none⟩ :=
  ⟨by decide,
   (c7_unset_style_fields ⟨"x", some true, none, none, none⟩).2 0 5 0 5
     ⟨some true, none, none⟩ ["bold"] (by decide)⟩

theorem findTableStep_stay (first last : List Char) (acc : Int × Int) (r : TextRun)
    (h : acc.1 ≠ -1) : findTableStep first last acc r = acc := by
  cases hidx : indexOfFrom r.content.data first 0 with
  | none => simp [findTableStep, hidx]
  | some i => simp [findTableStep, hidx, h]

theorem findTableStep_spec (first last : List Char) (runs : List TextRun) :
    FindSpec runs first last (runs.foldl (findTableStep first last) (-1, -1)) := by
  induction runs using List.reverseRecOn with
  | nil => exact Or.inl rfl
  | append_singleton rs r ih =>
    rw [List.foldl_append, List.foldl_cons, List.foldl_nil]
    rcases ih with hacc | ⟨r', hr', i, hi, h1, h2⟩
    · rw [hacc]
      cases hidx : indexOfFrom r.content.data first 0 with
      | none =>
        have hstep : findTableStep first last (-1, -1) r = (-1, -1) := by
          simp [findTableStep, hidx]
        rw [hstep]
        exact Or.inl rfl
      | some i =>
        cases hlast : indexOfFrom r.content.data last 0 with
        | none =>
          have hstep : findTableStep first last (-1, -1) r =
              ((r.startIndex : Int) + (i : Int), -1) := by
            simp [findTableStep, hidx, hlast]
          rw [hstep]
          exact Or.inr ⟨r, List.mem_append_right _ (List.mem_singleton_self r), i,
            hidx, rfl, Or.inl ⟨rfl, hlast⟩⟩
        | some e =>
          have hstep : findTableStep first last (-1, -1) r =
              ((r.startIndex : Int) + (i : Int),
               (r.startIndex : Int) + (e : Int) + (last.length : Int)) := by
            simp [findTableStep, hidx, hlast]
          rw [hstep]
          exact Or.inr ⟨r, List.mem_append_right _ (List.mem_singleton_self r), i,
            hidx, rfl, Or.inr ⟨e, hlast, rfl⟩⟩
    · have hne : (rs.foldl (findTableStep first last) (-1, -1)).1 ≠ -1 := by
        have h1' : (rs.foldl (findTableStep first last) (-1, -1)).1 =
            (r'.startIndex : Int) + (i : Int) := h1
        rw [h1']
        omega
      rw [findTableStep_stay first last _ r hne]
      exact Or.inr ⟨r', List.mem_append_left _ hr', i, hi, h1, h2⟩

/-- Claim C10: ConvertToTable emits its DeleteRange only when the last table
line is resolved in the same text run in which the first line was found; if
the first line is located but the last line is not found in that run
(`tableEndIndex` stays `-1`), the first batch is just the InsertTable at the
located start, with no delete. -/
theorem c10_delete_only_same_run (doc : Document) (first last : List Char)
    (ts te : Int) (hfind : findTableRange doc first last = (ts, te))
    (hts : ts ≠ -1) :
    (∀ (rows : List (List String)) (a b : Int),
        Request.deleteContentRange a b ∈ convertBatch1 rows ts te →
        ∃ r ∈ textRuns doc, ∃ i e : Nat,
          indexOfFrom r.content.data first 0 = some i ∧
          indexOfFrom r.content.data last 0 = some e ∧
          ts = (r.startIndex : Int) + (i : Int) ∧
          te = (r.startIndex : Int) + (e : Int) + (last.length : Int)) ∧
    (te = -1 →
      ∀ rows : List (List String),
        convertBatch1 rows ts te =
          [Request.insertTable rows.length (rows.headD []).length ts]) := by
  have hspec : FindSpec (textRuns doc) first last (ts, te) := by
    have h := findTableStep_spec first last (textRuns doc)
    rwa [show (textRuns doc).foldl (findTableStep first last) (-1, -1) =
      findTableRange doc first last from rfl, hfind] at h
  rcases hspec with h | ⟨r, hr, i, hi, h1, h2⟩
  · exact absurd (congrArg Prod.fst h) hts
  · have h1' : ts = (r.startIndex : Int) + (i : Int) := h1
    constructor
    · intro rows a b hmem
      by_cases hgt : te > ts
      · rcases h2 with ⟨hte, _⟩ | ⟨e, he, hte⟩
        · have hte' : te = -1 := hte
          omega
        · have hte' : te = (r.startIndex : Int) + (e : Int) + (last.length : Int) := hte
          exact ⟨r, hr, i, e, hi, he, h1', hte'⟩
      · exfalso
        unfold convertBatch1 at hmem
        rw [if_neg hgt] at hmem
        simp at hmem
    · intro hte rows
      rcases h2 with ⟨_, _⟩ | ⟨e, he, hte2⟩
      · unfold convertBatch1
        rw [if_neg (by omega)]
        simp
      · have hte2' : te = (r.startIndex : Int) + (e : Int) + (last.length : Int) := hte2
        omega

/-- Witness for C10: first line present, last line absent, so the first
batch is the lone InsertTable. -/
theorem c10_witness :
    convertBatch1 [["A", "B"]] 1 (-1) = [Request.insertTable 1 2 1] :=
  (c10_delete_only_same_run c10doc ("| A | B |".data) ("| 1 | 2 |".data) 1 (-1)
    (by decide) (by decide)).2 rfl [["A", "B"]]

/-- Claim C3: on `"| A | B |\n|---|---|\n| 1 | 2 |"` the parser yields the
grid `[["A","B"],["1","2"]]`, the first batch is exactly one DeleteRange and
one InsertTable, and the second batch is exactly four InsertText requests,
one per non-empty cell, at `tableStart + 4 + r*5 + c*2`. -/
theorem c3_convert_concrete (documentId : String) (doc : Document) (ts te : Int)
    (hfind : findTableRange doc ("| A | B |".data) ("| 1 | 2 |".data) = (ts, te))
    (hts : ts ≠ -1) (hte : te > ts) :
    parseTableRows "| A | B |\n|---|---|\n| 1 | 2 |" = [["A", "B"], ["1", "2"]] ∧
    (convertToTable true documentId doc "| A | B |\n|---|---|\n| 1 | 2 |").isError =
      false ∧
    (convertToTable true documentId doc "| A | B |\n|---|---|\n| 1 | 2 |").calls =
      [ExtCall.docsGet,
       ExtCall.docsBatchUpdate
         [Request.deleteContentRange ts te, Request.insertTable 2 2 ts],
       ExtCall.docsBatchUpdate
         [Request.insertText (ts + 4 + 0 * 5 + 0 * 2) "A",
          Request.insertText (ts + 4 + 0 * 5 + 1 * 2) "B",
          Request.insertText (ts + 4 + 1 * 5 + 0 * 2) "1",
          Request.insertText (ts + 4 + 1 * 5 + 1 * 2) "2"]] := by
  have hrows : parseTableRows "| A | B |\n|---|---|\n| 1 | 2 |" =
      [["A", "B"], ["1", "2"]] := by decide
  have hsplit : splitOnChar '\n' (jsTrim ("| A | B |\n|---|---|\n| 1 | 2 |".data)) =
      ["| A | B |".data, "|---|---|".data, "| 1 | 2 |".data] := by decide
  have hA : "A" ≠ "" := by decide
  have hB : "B" ≠ "" := by decide
  have h1 : "1" ≠ "" := by decide
  have h2 : "2" ≠ "" := by decide
  have eA : String.mk (jsTrim [' ', 'A', ' ']) = "A" := by decide
  have eB : String.mk (jsTrim [' ', 'B', ' ']) = "B" := by decide
  have e1 : String.mk (jsTrim [' ', '1', ' ']) = "1" := by decide
  have e2 : String.mk (jsTrim [' ', '2', ' ']) = "2" := by decide
  refine ⟨hrows, ?_, ?_⟩
  · simp [convertToTable, hrows, hsplit, hfind, hts]
  · simp [convertToTable, hrows, hsplit, hfind, hts, hte, convertBatch1,
      cellInsertRequests, cellInsertRequestsAux, cellRowRequests,
      eA, eB, e1, e2, hA, hB, h1, h2]

/-- Witness for C3 at a concrete one-run document containing the markdown. -/
theorem c3_witness :
    parseTableRows "| A | B |\n|---|---|\n| 1 | 2 |" = [["A", "B"], ["1", "2"]] ∧
    (convertToTable true "doc-1" c3doc "| A | B |\n|---|---|\n| 1 | 2 |").isError =
      false ∧
    (convertToTable true "doc-1" c3doc "| A | B |\n|---|---|\n| 1 | 2 |").calls =
      [ExtCall.docsGet,
       ExtCall.docsBatchUpdate
         [Request.deleteContentRange 1 30, Request.insertTable 2 2 1],
       ExtCall.docsBatchUpdate
         [Request.insertText (1 + 4 + 0 * 5 + 0 * 2) "A",
          Request.insertText (1 + 4 + 0 * 5 + 1 * 2) "B",
          Request.insertText (1 + 4 + 1 * 5 + 0 * 2) "1",
          Request.insertText (1 + 4 + 1 * 5 + 1 * 2) "2"]] :=
  c3_convert_concrete "doc-1" c3doc 1 30 (by decide) (by decide) (by decide)

theorem splitOnChar_ne_nil (sep : Char) (l : List Char) : splitOnChar sep l ≠ [] := by
  cases l with
  | nil => simp [splitOnChar]
  | cons c rest =>
    by_cases hc : c = sep
    · simp [splitOnChar, hc]
    · cases hS : splitOnChar sep rest with
      | nil => simp [splitOnChar, hc, hS]
      | cons a ls => simp [splitOnChar, hc, hS]

theorem joinChar_splitOnChar (sep : Char) (l : List Char) :
    joinChar sep (splitOnChar sep l) = l := by
  induction l with
  | nil => rfl
  | cons c rest ih =>
    by_cases hc : c = sep
    · cases hS : splitOnChar sep rest with
      | nil => exact absurd hS (splitOnChar_ne_nil sep rest)
      | cons a ls =>
        rw [hS] at ih
        simp only [splitOnChar, if_pos hc, hS, joinChar, List.nil_append]
        rw [ih, hc]
    · cases hS : splitOnChar sep rest with
      | nil => exact absurd hS (splitOnChar_ne_nil sep rest)
      | cons a ls =>
        rw [hS] at ih
        cases ls with
        | nil =>
          simp only [joinChar] at ih
          simp only [splitOnChar, if_neg hc, hS, joinChar]
          rw [ih]
        | cons b ls' =>
          simp only [joinChar] at ih
          simp only [splitOnChar, if_neg hc, hS, joinChar, List.cons_append]
          rw [ih]

theorem mem_of_mem_splitOnChar (sep : Char) (l : List Char) :
    ∀ line ∈ splitOnChar sep l, ∀ c ∈ line, c ∈ l := by
  induction l with
  | nil =>
    intro line hline c hc
    simp [splitOnChar] at hline
    subst hline
    simp at hc
  | cons a rest ih =>
    intro line hline c hc
    by_cases ha : a = sep
    · simp only [splitOnChar, if_pos ha] at hline
      rcases List.mem_cons.mp hline with h | h
      · subst h; exact absurd hc (by simp)
      · exact List.mem_cons_of_mem _ (ih line h c hc)
    · cases hS : splitOnChar sep rest with
      | nil => exact absurd hS (splitOnChar_ne_nil sep rest)
      | cons b ls =>
        simp only [splitOnChar, if_neg ha, hS] at hline
        rcases List.mem_cons.mp hline with h | h
        · subst h
          rcases List.mem_cons.mp hc with h1 | h1
          · exact h1 ▸ List.mem_cons_self _ _
          · refine List.mem_cons_of_mem _ (ih b ?_ c h1)
            rw [hS]
            exact List.mem_cons_self _ _
        · refine List.mem_cons_of_mem _ (ih line ?_ c hc)
          rw [hS]
          exact List.mem_cons_of_mem _ h

theorem formatMLGo_id (lines : List (List Char))
    (h : ∀ line ∈ lines, line.any (fun c => c == '|') = false) :
    formatMLGo false lines = lines := by
  induction lines with
  | nil => rfl
  | cons line rest ih =>
    have h1 : line.any (fun c => c == '|') = false := h line (List.mem_cons_self _ _)
    have h2 := ih (fun g hg => h g (List.mem_cons_of_mem _ hg))
    simp [formatMLGo, h1, h2]

theorem formatMLGoI_map_snd (b : Bool) (lines : List (List Char)) :
    (formatMLGoI b lines).map Prod.snd = formatMLGo b lines := by
  induction lines generalizing b with
  | nil => cases b <;> rfl
  | cons line rest ih =>
    by_cases hline : line.any (fun c => c == '|') = true <;>
      cases b <;> simp [formatMLGoI, formatMLGo, hline, ih]

theorem formatMLGoI_parity (lines : List (List Char)) (b : Bool) :
    ((formatMLGoI b lines).countP fun q => q.1) % 2 = (if b then 1 else 0) := by
  induction lines generalizing b with
  | nil => cases b <;> rfl
  | cons line rest ih =>
    have p1 : ((formatMLGoI true rest).countP fun q => q.1) % 2 = 1 := by
      simpa using ih true
    have p0 : ((formatMLGoI false rest).countP fun q => q.1) % 2 = 0 := by
      simpa using ih false
    by_cases hline : line.any (fun c => c == '|') = true <;>
      cases b <;> simp [formatMLGoI, hline, List.countP_cons] <;> omega

theorem formatMLGoI_between (lines : List (List Char)) :
    ∀ (b : Bool) (i : Nat) (p : Bool × List Char),
      (formatMLGoI b lines)[i]? = some p → p.1 = false → '|' ∈ p.2 →
      ((((formatMLGoI b lines).take i).countP fun q => q.1) +
        (if b then 1 else 0)) % 2 = 1 := by
  induction lines with
  | nil =>
    intro b i p hp hfalse hmem
    cases b
    · simp [formatMLGoI] at hp
    · cases i with
      | zero =>
        simp [formatMLGoI] at hp
        subst hp
        simp at hfalse
      | succ k => simp [formatMLGoI] at hp
  | cons line rest ih =>
    intro b i p hp hfalse hmem
    by_cases hline : line.any (fun c => c == '|') = true
    · cases b
      · -- inTable = false, pipe line: fence :: line :: (continue in table)
        rcases i with _ | i
        · simp [formatMLGoI, hline] at hp
          subst hp
          simp at hfalse
        · rcases i with _ | k
          · simp [formatMLGoI, hline, List.countP_cons]
          · simp [formatMLGoI, hline] at hp
            have hrec : ((((formatMLGoI true rest).take k).countP fun q => q.1) + 1)
                % 2 = 1 := by
              simpa using ih true k p hp hfalse hmem
            simp [formatMLGoI, hline, List.take_succ_cons, List.countP_cons]
            omega
      · -- inTable = true, pipe line: line :: (continue in table)
        rcases i with _ | k
        · simp [formatMLGoI, hline, List.countP_cons]
        · simp [formatMLGoI, hline] at hp
          have hrec : ((((formatMLGoI true rest).take k).countP fun q => q.1) + 1)
              % 2 = 1 := by
            simpa using ih true k p hp hfalse hmem
          simp [formatMLGoI, hline, List.take_succ_cons, List.countP_cons]
          omega
    · cases b
      · -- inTable = false, plain line: line :: (stay outside)
        rcases i with _ | k
        · simp [formatMLGoI, hline] at hp
          subst hp
          exact absurd (List.any_eq_true.mpr ⟨'|', hmem, rfl⟩) hline
        · simp [formatMLGoI, hline] at hp
          have hrec : (((formatMLGoI false rest).take k).countP fun q => q.1) % 2
              = 1 := by
            simpa using ih false k p hp hfalse hmem
          simp [formatMLGoI, hline, List.take_succ_cons, List.countP_cons]
          omega
      · -- inTable = true, plain line: fence :: line :: (leave table)
        rcases i with _ | i
        · simp [formatMLGoI, hline] at hp
          subst hp
          simp at hfalse
        · rcases i with _ | k
          · simp [formatMLGoI, hline] at hp
            subst hp
            exact absurd (List.any_eq_true.mpr ⟨'|', hmem, rfl⟩) hline
          · simp [formatMLGoI, hline] at hp
            have hrec : (((formatMLGoI false rest).take k).countP fun q => q.1) % 2
                = 1 := by
              simpa using ih false k p hp hfalse hmem
            simp [formatMLGoI, hline, List.take_succ_cons, List.countP_cons]
            omega

/-- Claim C9: CreateDoc pipes its (truthy, i.e. present and non-empty)
content through `formatMarkdownTable` before insertion; the function is the
identity on inputs with no `|`; the number of inserted fence lines is always
even, and every original line containing `|` sits at a position preceded by
an odd number of inserted fences — i.e. between an opened fence and its
matching close. -/
theorem c9_format_markdown_table :
    (∀ text : String, (∀ c ∈ text.data, c ≠ '|') →
        formatMarkdownTable text = text) ∧
    (∀ (title newDocumentId content : String), content ≠ "" →
        (createDoc true title (some content) newDocumentId).calls =
          [ExtCall.docsCreate,
           ExtCall.docsBatchUpdate
             [Request.insertText 1 (formatMarkdownTable content)]]) ∧
    (∀ (b : Bool) (lines : List (List Char)),
        (formatMLGoI b lines).map Prod.snd = formatMLGo b lines) ∧
    (∀ lines : List (List Char),
        ((formatMLGoI false lines).countP fun q => q.1) % 2 = 0) ∧
    (∀ (lines : List (List Char)) (i : Nat) (p : Bool × List Char),
        (formatMLGoI false lines)[i]? = some p → p.1 = false → '|' ∈ p.2 →
        (((formatMLGoI false lines).take i).countP fun q => q.1) % 2 = 1) := by
  refine ⟨?_, ?_, formatMLGoI_map_snd, ?_, ?_⟩
  · intro text h
    have hlines : ∀ line ∈ splitOnChar '\n' text.data,
        line.any (fun c => c == '|') = false := by
      intro line hline
      simp only [List.any_eq_false, beq_iff_eq]
      intro c hc
      exact h c (mem_of_mem_splitOnChar '\n' text.data line hline c hc)
    unfold formatMarkdownTable
    rw [formatMLGo_id _ hlines, joinChar_splitOnChar]
  · intro title newDocumentId content hc
    simp [createDoc, hc]
  · intro lines
    have := formatMLGoI_parity lines false
    simpa using this
  · intro lines i p hp hfalse hmem
    have := formatMLGoI_between lines false i p hp hfalse hmem
    simpa using this

/-- Witness for C9: identity on a pipe-free text, the insertion batch for a
concrete non-empty content, and a pipe line sitting after an odd number of
inserted fences. -/
theorem c9_witness :
    formatMarkdownTable "hello\nworld" = "hello\nworld" ∧
    (createDoc true "T" (some "a|b") "id-1").calls =
      [ExtCall.docsCreate,
       ExtCall.docsBatchUpdate
         [Request.insertText 1 (formatMarkdownTable "a|b")]] ∧
    ((((formatMLGoI false [['a', '|']]).take 1).countP fun q => q.1) % 2 = 1) :=
  ⟨c9_format_markdown_table.1 "hello\nworld" (by decide),
   c9_format_markdown_table.2.1 "T" "id-1" "a|b" (by decide),
   c9_format_markdown_table.2.2.2.2 [['a', '|']] 1 (false, ['a', '|'])
     (by decide) (by decide) (by decide)⟩

end DocuGen
